import Mathlib

set_option maxRecDepth 20000

/-!
Shallow embedding of the `bk_rom_compressor` repository
(`src/comp/cic.rs`, `src/comp/main.rs`, `src/decomp/main.rs`).

Rust `u32` values are modelled as `Nat` below `M32 = 2^32`, with wrapping
arithmetic written as explicit `% M32`.  Rust `u8` slices are modelled as
`List Nat` (or byte functions `Nat → Nat`), reduced `% 256` at every read
site, which is the identity on genuine byte data.
-/

namespace BkRom

/-- `2^32`, the modulus of Rust `u32` arithmetic. -/
def M32 : Nat := 4294967296

/-! ## `src/comp/cic.rs` -/

/-- `POLYNOMIAL` from `cic.rs`. -/
def POLYNOMIAL : Nat := 0xedb88320

/-- One entry of `CRC_TABLE` as produced by `crc_generate_table` in `cic.rs`:
eight rounds of the reflected CRC-32 bit step starting from the index. -/
def crcTableEntry (i : Nat) : Nat :=
  (List.range 8).foldl
    (fun crc _ => if crc &&& 1 ≠ 0 then (crc >>> 1) ^^^ POLYNOMIAL else crc >>> 1) i

/-- The per-byte update of `crc32` in `cic.rs`:
`crc = (crc >> 8) ^ CRC_TABLE[((crc as u8) ^ byte) as usize]`. -/
def crcByteStep (crc b : Nat) : Nat :=
  (crc >>> 8) ^^^ crcTableEntry ((crc % 256) ^^^ (b % 256))

/-- `crc32` from `cic.rs`: table-driven reflected CRC-32, initial value
`0xFFFFFFFF`, final complement (`!crc` on `u32` is xor with `0xFFFFFFFF`). -/
def crc32 (data : List Nat) : Nat :=
  (data.foldl crcByteStep 0xFFFFFFFF) ^^^ 0xFFFFFFFF

/-- `N64CicType` from `cic.rs`. -/
inductive N64CicType
  | Cic6101
  | Cic6102
  | Cic6103
  | Cic6105
  | Cic6106
deriving DecidableEq, Repr

/-- `HEADER_SIZE` from `cic.rs`. -/
def HEADER_SIZE : Nat := 0x40

/-- `BC_SIZE` from `cic.rs`. -/
def BC_SIZE : Nat := 0x1000 - HEADER_SIZE

/-- Read one byte of a rom modelled as a byte function (`u8` read). -/
def byteAt (rom : Nat → Nat) (i : Nat) : Nat := rom i % 256

/-- The slice `rom[HEADER_SIZE .. HEADER_SIZE + BC_SIZE]` that `identify`
feeds to `crc32`. -/
def bcRegion (rom : Nat → Nat) : List Nat :=
  (List.range BC_SIZE).map (fun k => byteAt rom (HEADER_SIZE + k))

/-- `identify` from `cic.rs`: match the CRC-32 of the boot-code region
against the five known constants. -/
def identify (rom : Nat → Nat) : Option N64CicType :=
  let c := crc32 (bcRegion rom)
  if c = 0x6170a4a1 then some N64CicType.Cic6101
  else if c = 0x90bb6cb5 then some N64CicType.Cic6102
  else if c = 0x0B050ee0 then some N64CicType.Cic6103
  else if c = 0x98bc2c86 then some N64CicType.Cic6105
  else if c = 0xacc8580a then some N64CicType.Cic6106
  else none

/-- The seed selected by `calculate_crc` for each variant. -/
def cicSeed : N64CicType → Nat
  | N64CicType.Cic6101 => 0xF8CA4DDC
  | N64CicType.Cic6102 => 0xF8CA4DDC
  | N64CicType.Cic6103 => 0xA3886759
  | N64CicType.Cic6105 => 0xDF26F436
  | N64CicType.Cic6106 => 0x1FEA617A

/-- `u32::from_be_bytes` of four consecutive bytes of a byte function. -/
def be32 (w : Nat → Nat) (off : Nat) : Nat :=
  byteAt w off * 2 ^ 24 + byteAt w (off + 1) * 2 ^ 16 +
    byteAt w (off + 2) * 2 ^ 8 + byteAt w (off + 3)

/-- Rust `u32::checked_shl`: `none` when the shift amount is `≥ 32`,
otherwise the (truncating) left shift. -/
def checked_shl (x s : Nat) : Option Nat :=
  if s < 32 then some ((x <<< s) % M32) else none

/-- Rust `u32::checked_shr`: `none` when the shift amount is `≥ 32`,
otherwise the right shift. -/
def checked_shr (x s : Nat) : Option Nat :=
  if s < 32 then some (x >>> s) else none

/-- The clamped-shift value `r` computed per word in `calculate_crc`
(`cic.rs` line 77). -/
def cicR (d : Nat) : Nat :=
  (checked_shl d (d &&& 0x1F)).getD 0 ||| (checked_shr d (32 - (d &&& 0x1F))).getD 0

/-- The six accumulators of `calculate_crc`. -/
structure CicState where
  t1 : Nat
  t2 : Nat
  t3 : Nat
  t4 : Nat
  t5 : Nat
  t6 : Nat
deriving DecidableEq, Repr

/-- All six accumulators are `u32` values. -/
def CicState.Bounded (st : CicState) : Prop :=
  st.t1 < M32 ∧ st.t2 < M32 ∧ st.t3 < M32 ∧ st.t4 < M32 ∧ st.t5 < M32 ∧ st.t6 < M32

instance (st : CicState) : Decidable st.Bounded := by
  unfold CicState.Bounded; infer_instance

/-- The body of the per-word loop of `calculate_crc` (`cic.rs` lines 73–86),
translated statement by statement.  `w` is the 1 MiB window `crc_section`,
`i` the word index. -/
def cicStep (bc : N64CicType) (w : Nat → Nat) (i : Nat) (st : CicState) : CicState :=
  let d := be32 w (4 * i)
  let t4 := (st.t4 + (if (st.t6 + d) % M32 < st.t6 then 1 else 0)) % M32
  let t6 := (st.t6 + d) % M32
  let t3 := st.t3 ^^^ d
  let r := cicR d
  let t5 := (st.t5 + r) % M32
  let t2 := st.t2 ^^^ (if st.t2 > d then r else t6 ^^^ d)
  let x := if bc = N64CicType.Cic6105
    then be32 w ((4 * i + 0x710) &&& 0xFF)
    else t5
  let t1 := (st.t1 + (d ^^^ x)) % M32
  ⟨t1, t2, t3, t4, t5, t6⟩

/-- Initial accumulator state of `calculate_crc`: all six set to the seed. -/
def cicInit (bc : N64CicType) : CicState :=
  ⟨cicSeed bc, cicSeed bc, cicSeed bc, cicSeed bc, cicSeed bc, cicSeed bc⟩

/-- Number of 32-bit words in the 1 MiB window (`0x100000 / 4`). -/
def NWORDS : Nat := 0x40000

/-- The full accumulator loop of `calculate_crc` over the window. -/
def cicLoop (bc : N64CicType) (w : Nat → Nat) : CicState :=
  (List.range NWORDS).foldl (fun st i => cicStep bc w i st) (cicInit bc)

/-- The final combination of the six accumulators (`cic.rs` lines 87–91),
with Rust release-mode wrapping `+` and `*` written as `% M32`. -/
def cicCombine (bc : N64CicType) (st : CicState) : List Nat :=
  match bc with
  | N64CicType.Cic6103 =>
      [((st.t6 ^^^ st.t4) + st.t3) % M32, ((st.t5 ^^^ st.t2) + st.t1) % M32]
  | N64CicType.Cic6106 =>
      [((st.t6 * st.t4) % M32 + st.t3) % M32, ((st.t5 * st.t2) % M32 + st.t1) % M32]
  | _ => [st.t6 ^^^ st.t4 ^^^ st.t3, st.t5 ^^^ st.t2 ^^^ st.t1]

/-- The window `crc_section = rom[0x1000 .. 0x1000 + 0x100000]` as a byte
function. -/
def cicWindow (rom : Nat → Nat) : Nat → Nat := fun k => rom (0x1000 + k)

/-- `calculate_crc` from `cic.rs`: `none` exactly when `identify` fails,
otherwise the combined accumulator pair. -/
def calculate_crc (rom : Nat → Nat) : Option (List Nat) :=
  (identify rom).map (fun bc => cicCombine bc (cicLoop bc (cicWindow rom)))

/-! ## `src/comp/main.rs` -/

/-- The per-byte update of `bk_crc` in `main.rs`:
`a = crc.0 + byte; b = crc.1 ^ (byte << (a & 0x17))`, all on `u32`. -/
def bkByteStep (crc : Nat × Nat) (byte : Nat) : Nat × Nat :=
  let b := byte % 256
  let a := (crc.1 + b) % M32
  (a, crc.2 ^^^ ((b <<< (a &&& 0x17)) % M32))

/-- `bk_crc` from `main.rs`: fold over the bytes starting from
`(0, 0xFFFFFFFF)`; the add is wrapping `u32` arithmetic, the shift amount
is the updated sum accumulator masked with `0x17`. -/
def bk_crc (bytes : List Nat) : Nat × Nat :=
  bytes.foldl bkByteStep ((0, 0xFFFFFFFF) : Nat × Nat)

/-- `u32::to_be_bytes`. -/
def u32be (v : Nat) : List Nat :=
  [(v >>> 24) % 256, (v >>> 16) % 256, (v >>> 8) % 256, v % 256]

/-- `Vec::splice(off .. off + value.len(), value)` on an in-bounds range:
replace the `value.length` bytes at `off` by `value`. -/
def writeBytes (l : List Nat) (off : Nat) (value : List Nat) : List Nat :=
  l.take off ++ value ++ l.drop (off + value.length)

/-- Write a `u32` value big-endian at byte offset `off`, as every
`replace_symbol` call site of `main.rs` does. -/
def set4 (l : List Nat) (off : Nat) (v : Nat) : List Nat :=
  writeBytes l off (u32be v)

/-- The `replace_symbol` closure of `main.rs`, for a resolved symbol:
`offset = sym.value as usize - rom_offset` (a `usize` subtraction, which
fails for an address below the base: it panics on underflow in a debug
build and in a release build wraps to a huge offset on which
`Vec::splice` then panics), then splice the 4-byte value over
`bytes[offset .. offset + 4]`.  Both panic paths — address below base,
and range beyond the end of the buffer — are modelled as `none`. -/
def replace_symbol (bytes : List Nat) (base addr : Nat) (value : List Nat) :
    Option (List Nat) :=
  if base ≤ addr then
    let off := addr - base
    if off + value.length ≤ bytes.length then some (writeBytes bytes off value)
    else none
  else none

/-- Dependency step 1 for one self-checking overlay (`main.rs` lines
190–195 and its repetitions): patch the code-checksum pair at `o1`, `o2`,
zero `o3`, recompute the data checksum, patch its first word at `o3`. -/
def patchOverlayStep1 (data : List Nat) (o1 o2 o3 : Nat) (c : Nat × Nat) :
    List Nat :=
  let d1 := set4 data o1 c.1
  let d2 := set4 d1 o2 c.2
  let d3 := set4 d2 o3 0
  let dc := bk_crc d3
  set4 d3 o3 dc.1

/-- The data buffer of step 1 at the moment its checksum is taken
(third offset zeroed). -/
def step1Zeroed (data : List Nat) (o1 o2 o3 : Nat) (c : Nat × Nat) : List Nat :=
  set4 (set4 (set4 data o1 c.1) o2 c.2) o3 0

/-- The value written into the third offset in step 1. -/
def step1Written (data : List Nat) (o1 o2 o3 : Nat) (c : Nat × Nat) : Nat :=
  (bk_crc (step1Zeroed data o1 o2 o3 c)).1

/-- Dependency step 2 (`main.rs` lines 258–268): patch the second word of
core2's code checksum into core2's own data span at `offF4`, compute
core2's data checksum, patch its second word into core1's data at
`off574`, patch the completed SM data-checksum word at `off650`, then
compute core1's data checksum.  Returns (patched core2 data, core2 data
checksum, patched core1 data, core1 data checksum). -/
def step2 (core1data core2data : List Nat) (offF4 off574 off650 : Nat)
    (core2code : Nat × Nat) (smWord : Nat) :
    List Nat × (Nat × Nat) × List Nat × (Nat × Nat) :=
  let c2 := set4 core2data offF4 core2code.2
  let c2dc := bk_crc c2
  let c1 := set4 (set4 core1data off574 c2dc.2) off650 smWord
  (c2, c2dc, c1, bk_crc c1)

/-- Round up to the next multiple of 16: `len + (16-1) & !(16-1)` from
`main.rs` line 276 (in Rust, `+` binds tighter than `&`; clearing the low
four bits of a `usize` is `(x >>> 4) <<< 4`). -/
def roundUp16 (n : Nat) : Nat := ((n + 15) >>> 4) <<< 4

/-- `Vec::resize(n, v)`: truncate or pad with `v` to length `n`. -/
def listResize (l : List Nat) (n : Nat) (v : Nat) : List Nat :=
  if n ≤ l.length then l.take n else l ++ List.replicate (n - l.length) v

/-- One overlay's emitted block (`main.rs` lines 272–278): compressed code
appended with compressed data, resized with zero fill up to the next
16-byte boundary. -/
def mk_block (zip : List Nat → List Nat) (code data : List Nat) : List Nat :=
  let cz := zip code ++ zip data
  listResize cz (roundUp16 cz.length) 0

/-- The per-overlay block list before the swap. -/
def rzipBlocks (zip : List Nat → List Nat) (codeL dataL : List (List Nat)) :
    List (List Nat) :=
  (codeL.zip dataL).map (fun p => mk_block zip p.1 p.2)

/-- `Vec::swap(i, j)` on a list of byte vectors. -/
def swapBlocks (l : List (List Nat)) (i j : Nat) : List (List Nat) :=
  (l.set i (l.getD j [])).set j (l.getD i [])

/-- The assembled output image (`main.rs` lines 325–333): prefix up to the
boot segment, boot bytes, 32-byte checksum header, gap bytes, the emitted
blocks, then `0xFF` fill up to `0x1000000`. -/
def assemble (rom : List Nat) (bootStart bootEnd crcStart overlayStart : Nat)
    (crcBytes : List Nat) (blocks : List (List Nat)) : List Nat :=
  rom.take bootStart ++
    ((rom.drop bootStart).take (bootEnd - bootStart)) ++
    crcBytes ++
    ((rom.drop (crcStart + 0x20)).take (overlayStart - (crcStart + 0x20))) ++
    blocks.flatten ++
    List.replicate (0x1000000 - (overlayStart + (blocks.map List.length).sum)) 0xFF

/-! ## `src/decomp/main.rs` -/

/-- `ROMEndianessError` from `decomp/main.rs`. -/
inductive ROMEndianessError
  | NonN64ROM
deriving DecidableEq, Repr

instance {ε α : Type} [DecidableEq ε] [DecidableEq α] :
    DecidableEq (Except ε α) := fun x y =>
  match x, y with
  | Except.error e, Except.error f =>
      decidable_of_iff (e = f) (by rw [Except.error.injEq])
  | Except.ok a, Except.ok b =>
      decidable_of_iff (a = b) (by rw [Except.ok.injEq])
  | Except.error _, Except.ok _ => isFalse (fun hc => Except.noConfusion hc)
  | Except.ok _, Except.error _ => isFalse (fun hc => Except.noConfusion hc)

/-- `le_to_me` from `decomp/main.rs`: swap each aligned 2-byte pair;
`chunks_exact(2)` drops a trailing odd byte. -/
def le_to_me : List Nat → List Nat
  | a :: b :: rest => b :: a :: le_to_me rest
  | _ => []

/-- `le_to_be` from `decomp/main.rs`: reverse each aligned 4-byte group;
`chunks_exact(4)` drops a trailing incomplete group. -/
def le_to_be : List Nat → List Nat
  | a :: b :: c :: d :: rest => d :: c :: b :: a :: le_to_be rest
  | _ => []

/-- `rom_to_big_endian` from `decomp/main.rs`: dispatch on the first four
bytes. -/
def rom_to_big_endian (l : List Nat) : Except ROMEndianessError (List Nat) :=
  match l.take 4 with
  | [0x80, 0x37, 0x12, 0x40] => Except.ok l
  | [0x40, 0x12, 0x37, 0x80] => Except.ok (le_to_be l)
  | [0x37, 0x80, 0x40, 0x12] => Except.ok (le_to_me l)
  | _ => Except.error ROMEndianessError.NonN64ROM

/-! ## Definitions taken from the specification's words
(for the refinement claims; each is compared against the source
definition above). -/

/-- Modelled from the spec (claim C1 wording): one accumulator update per
word, the overflow test written as `2^32 ≤ t6 + d`, the clamped shifts
written out with their validity conditions. -/
def cicStepSpec (bc : N64CicType) (w : Nat → Nat) (i : Nat) (st : CicState) :
    CicState :=
  let d := be32 w (4 * i)
  let t4 := (st.t4 + (if M32 ≤ st.t6 + d then 1 else 0)) % M32
  let t6 := (st.t6 + d) % M32
  let t3 := st.t3 ^^^ d
  let s := d &&& 0x1F
  let r := (if s < 32 then (d <<< s) % M32 else 0) |||
           (if 32 - s < 32 then d >>> (32 - s) else 0)
  let t5 := (st.t5 + r) % M32
  let t2 := st.t2 ^^^ (if st.t2 > d then r else t6 ^^^ d)
  let x := if bc = N64CicType.Cic6105
    then be32 w ((4 * i + 0x710) &&& 0xFF)
    else t5
  let t1 := (st.t1 + (d ^^^ x)) % M32
  ⟨t1, t2, t3, t4, t5, t6⟩

/-- Modelled from the spec (claim C4 wording): the final combination per
variant, with a single wrapping reduction on each word. -/
def cicCombineSpec (bc : N64CicType) (st : CicState) : List Nat :=
  match bc with
  | N64CicType.Cic6103 =>
      [((st.t6 ^^^ st.t4) + st.t3) % M32, ((st.t5 ^^^ st.t2) + st.t1) % M32]
  | N64CicType.Cic6106 =>
      [(st.t6 * st.t4 + st.t3) % M32, (st.t5 * st.t2 + st.t1) % M32]
  | _ => [st.t6 ^^^ st.t4 ^^^ st.t3, st.t5 ^^^ st.t2 ^^^ st.t1]

/-- Left rotation of a 32-bit value by `s ≤ 31` bits (on `Nat`,
`d >>> 32 = d / 2^32 = 0` for `d < 2^32`, so the `s = 0` case needs no
clamping here). -/
def rotl32 (d s : Nat) : Nat := ((d <<< s) % M32) ||| (d >>> (32 - s))

/-- The five-constant match table, as a function of a CRC value. -/
def variantOfCrc (c : Nat) : Option N64CicType :=
  if c = 0x6170a4a1 then some N64CicType.Cic6101
  else if c = 0x90bb6cb5 then some N64CicType.Cic6102
  else if c = 0x0B050ee0 then some N64CicType.Cic6103
  else if c = 0x98bc2c86 then some N64CicType.Cic6105
  else if c = 0xacc8580a then some N64CicType.Cic6106
  else none

/-- The 1 MiB window `rom[0x1000 .. 0x101000]` as a byte list. -/
def mibWindow (rom : Nat → Nat) : List Nat :=
  (List.range 0x100000).map (fun k => byteAt rom (0x1000 + k))

/-- Modelled from the spec (claim C2 wording): identification by CRC-32
over the 1 MiB window. -/
def identifySpec (rom : Nat → Nat) : Option N64CicType :=
  variantOfCrc (crc32 (mibWindow rom))

/-- Modelled from the spec (claim C3 wording): the running checksum as a
left-to-right recursion on the byte list, each byte producing the wrapped
sum and the xor of the shifted byte. -/
def bkCrcSpec : Nat × Nat → List Nat → Nat × Nat
  | acc, [] => acc
  | acc, b :: rest =>
      let a := (acc.1 + b) % M32
      bkCrcSpec (a, acc.2 ^^^ ((b <<< (a &&& 0x17)) % M32)) rest

/-- Modelled from the spec (claim C6 wording): the word of core2's code
checksum is patched into core1's data span, core2's data span is left
untouched, and core2's data checksum is computed afterwards. -/
def step2Claim (core1data core2data : List Nat) (offF4 off574 off650 : Nat)
    (core2code : Nat × Nat) (smWord : Nat) :
    List Nat × (Nat × Nat) × List Nat × (Nat × Nat) :=
  let c1a := set4 core1data offF4 core2code.2
  let c2dc := bk_crc core2data
  let c1 := set4 (set4 c1a off574 c2dc.2) off650 smWord
  (core2data, c2dc, c1, bk_crc c1)

/-- Modelled from the spec (claim C10 wording): "the input with every
aligned 4-byte group reversed" — bytes outside a complete aligned group
are kept in place. -/
def le_to_be_claim : List Nat → List Nat
  | a :: b :: c :: d :: rest => d :: c :: b :: a :: le_to_be_claim rest
  | l => l

/-- Modelled from the spec (claim C10 wording): "the input with every
aligned 2-byte pair swapped" — a trailing odd byte is kept in place. -/
def le_to_me_claim : List Nat → List Nat
  | a :: b :: rest => b :: a :: le_to_me_claim rest
  | l => l

/-! ## Concrete inputs used in witnesses and counterexamples -/

/-- A rom whose boot-code region `[0x40, 0x1000)` is all zero except its
last four bytes, chosen so that the region's CRC-32 is exactly
`0x6170a4a1` (the `Cic6101` constant); every byte outside the region,
including the whole 1 MiB window from `0x1000`, is zero. -/
def rom1 : Nat → Nat := fun i =>
  if i = 0xFFC then 0xE2 else if i = 0xFFD then 0x66
  else if i = 0xFFE then 0x56 else if i = 0xFFF then 0xB7 else 0

/-- `rom1` with the last byte of the boot-code region changed, which
moves the region's CRC-32 off all five constants; the 1 MiB window is
unchanged (all zero). -/
def rom2 : Nat → Nat := fun i =>
  if i = 0xFFC then 0xE2 else if i = 0xFFD then 0x66
  else if i = 0xFFE then 0x56 else if i = 0xFFF then 0xB8 else 0

/-- The all-zero rom. -/
def rom0 : Nat → Nat := fun _ => 0

/-! ## Helper lemmas -/

theorem M32_eq : M32 = 2 ^ 32 := by norm_num [M32]

theorem M32_pos : 0 < M32 := by norm_num [M32]

theorem byteAt_lt (rom : Nat → Nat) (i : Nat) : byteAt rom i < 256 :=
  Nat.mod_lt _ (by norm_num)

theorem be32_lt (w : Nat → Nat) (off : Nat) : be32 w off < M32 := by
  have h0 := byteAt_lt w off
  have h1 := byteAt_lt w (off + 1)
  have h2 := byteAt_lt w (off + 2)
  have h3 := byteAt_lt w (off + 3)
  unfold be32 M32
  norm_num
  omega

theorem xor_lt_M32 {x y : Nat} (hx : x < M32) (hy : y < M32) : x ^^^ y < M32 := by
  rw [M32_eq] at *
  exact Nat.bitwise_lt hx hy

theorem lor_lt_M32 {x y : Nat} (hx : x < M32) (hy : y < M32) : x ||| y < M32 := by
  rw [M32_eq] at *
  exact Nat.bitwise_lt hx hy

theorem shiftRight_le_self (x k : Nat) : x >>> k ≤ x := by
  rw [Nat.shiftRight_eq_div_pow]
  exact Nat.div_le_self _ _

theorem and31_lt (d : Nat) : d &&& 0x1F < 32 :=
  lt_of_le_of_lt Nat.and_le_right (by norm_num)

theorem cicR_eq_ite (d : Nat) :
    cicR d = ((d <<< (d &&& 0x1F)) % M32) |||
      (if 32 - (d &&& 0x1F) < 32 then d >>> (32 - (d &&& 0x1F)) else 0) := by
  unfold cicR checked_shl checked_shr
  rw [if_pos (and31_lt d)]
  by_cases h : 32 - (d &&& 0x1F) < 32
  · rw [if_pos h, if_pos h]
    rfl
  · rw [if_neg h, if_neg h]
    rfl

theorem cicR_lt (d : Nat) (hd : d < M32) : cicR d < M32 := by
  rw [cicR_eq_ite]
  apply lor_lt_M32 (Nat.mod_lt _ M32_pos)
  by_cases h : 32 - (d &&& 0x1F) < 32
  · rw [if_pos h]
    exact lt_of_le_of_lt (shiftRight_le_self d _) hd
  · rw [if_neg h]
    exact M32_pos

theorem cicR_eq_rotl (d : Nat) (hd : d < M32) : cicR d = rotl32 d (d &&& 0x1F) := by
  rw [cicR_eq_ite]
  unfold rotl32
  by_cases h : d &&& 0x1F = 0
  · rw [h]
    have h32 : ¬ (32 - 0 < 32) := by norm_num
    rw [if_neg h32]
    have : d >>> (32 - 0) = 0 := by
      rw [Nat.shiftRight_eq_div_pow]
      exact Nat.div_eq_of_lt (by rw [M32_eq] at hd; exact hd)
    rw [this]
  · have hlt : 32 - (d &&& 0x1F) < 32 := by
      have := and31_lt d
      omega
    rw [if_pos hlt]

theorem wrap_lt_iff (a b : Nat) (ha : a < M32) (hb : b < M32) :
    ((a + b) % M32 < a) ↔ M32 ≤ a + b := by
  unfold M32 at *
  omega

/-! ## Claim C9 -/

/-- C9: the clamped-shift value `r` computed per word of the boot CRC
equals `d` rotated left by `d &&& 0x1F` bits; the left checked shift never
clamps, and the right checked shift clamps exactly when `d &&& 0x1F = 0`,
where the left-shift term alone already equals `d`. -/
theorem claim_C9 (d : Nat) (hd : d < M32) :
    cicR d = rotl32 d (d &&& 0x1F) ∧
    (checked_shl d (d &&& 0x1F)).isSome = true ∧
    ((checked_shr d (32 - (d &&& 0x1F))).isNone = true ↔ d &&& 0x1F = 0) ∧
    (d &&& 0x1F = 0 → (checked_shl d (d &&& 0x1F)).getD 0 = d) := by
  refine ⟨cicR_eq_rotl d hd, ?_, ?_, ?_⟩
  · unfold checked_shl
    rw [if_pos (and31_lt d)]
    rfl
  · unfold checked_shr
    constructor
    · intro h
      by_contra hne
      have hlt : 32 - (d &&& 0x1F) < 32 := by
        have := and31_lt d
        omega
      rw [if_pos hlt] at h
      simp at h
    · intro h
      rw [h]
      norm_num
  · intro h
    unfold checked_shl
    rw [if_pos (and31_lt d), h]
    simp only [Option.getD_some]
    rw [Nat.shiftLeft_zero]
    exact Nat.mod_eq_of_lt hd

/-- Witness for C9 at `d = 5`. -/
theorem claim_C9_witness :
    (5 : Nat) < M32 ∧
    (cicR 5 = rotl32 5 (5 &&& 0x1F) ∧
     (checked_shl 5 (5 &&& 0x1F)).isSome = true ∧
     ((checked_shr 5 (32 - (5 &&& 0x1F))).isNone = true ↔ (5 : Nat) &&& 0x1F = 0) ∧
     ((5 : Nat) &&& 0x1F = 0 → (checked_shl 5 (5 &&& 0x1F)).getD 0 = 5)) :=
  ⟨by decide, claim_C9 5 (by decide)⟩

/-! ## Claim C3 -/

theorem foldl_bk_eq_spec (l : List Nat) :
    ∀ acc, (∀ b ∈ l, b < 256) → l.foldl bkByteStep acc = bkCrcSpec acc l := by
  induction l with
  | nil => intro acc _; rfl
  | cons b rest ih =>
    intro acc h
    have hb : b < 256 := h b (by simp)
    simp only [List.foldl_cons, bkCrcSpec, bkByteStep, Nat.mod_eq_of_lt hb]
    exact ih _ (fun x hx => h x (by simp [hx]))

/-- C3: for every byte span the running segment checksum equals the fold
described by the spec (wrapping sum accumulator, xor of the byte shifted
by the updated sum masked with the literal `0x17`), and the empty span
yields exactly `(0, 0xFFFFFFFF)`. -/
theorem claim_C3 (bytes : List Nat) (h : ∀ b ∈ bytes, b < 256) :
    bk_crc bytes = bkCrcSpec (0, 0xFFFFFFFF) bytes ∧ bk_crc [] = (0, 0xFFFFFFFF) :=
  ⟨foldl_bk_eq_spec bytes _ h, rfl⟩

/-- Witness for C3 on the bytes `[1, 2, 3]`. -/
theorem claim_C3_witness :
    (∀ b ∈ [1, 2, 3], b < 256) ∧
    (bk_crc [1, 2, 3] = bkCrcSpec (0, 0xFFFFFFFF) [1, 2, 3] ∧
     bk_crc [] = (0, 0xFFFFFFFF)) :=
  ⟨by decide, claim_C3 [1, 2, 3] (by decide)⟩

/-! ## Claim C1 -/

/-- C1: for every variant, window, word index and in-range accumulator
state, the per-word update of `calculate_crc` is exactly the update the
spec describes: overflow-carry into `t4` tested before `t6` is updated,
wrapping `t6 += d`, `t3 ^= d`, the clamped rotate-like shift `r`,
wrapping `t5 += r`, `t2 ^= (r if t2 > d else t6 ^ d)`, and
`t1 += d ^ X` with `X = t5` except for `Cic6105`, which reads the
big-endian word at `(4*i + 0x710) &&& 0xFF` inside the same window. -/
theorem claim_C1 (bc : N64CicType) (w : Nat → Nat) (i : Nat) (st : CicState)
    (h : st.Bounded) : cicStep bc w i st = cicStepSpec bc w i st := by
  obtain ⟨h1, h2, h3, h4, h5, h6⟩ := h
  have hd : be32 w (4 * i) < M32 := be32_lt w _
  have hcond := wrap_lt_iff st.t6 (be32 w (4 * i)) h6 hd
  simp only [cicStep, cicStepSpec, cicR_eq_ite, hcond,
    if_pos (and31_lt (be32 w (4 * i)))]

/-- Witness for C1 at `Cic6101`, the all-zero window, word index 0 and the
seeded initial state. -/
theorem claim_C1_witness :
    (cicInit N64CicType.Cic6101).Bounded ∧
    cicStep N64CicType.Cic6101 (fun _ => 0) 0 (cicInit N64CicType.Cic6101) =
      cicStepSpec N64CicType.Cic6101 (fun _ => 0) 0 (cicInit N64CicType.Cic6101) :=
  ⟨by decide, claim_C1 N64CicType.Cic6101 (fun _ => 0) 0 _ (by decide)⟩

/-! ## Chunked evaluation of `crc32` on the concrete boot-code regions -/

theorem crcChunk1 :
    List.foldl crcByteStep 0xFFFFFFFF (List.replicate 504 0) = 0xee160f20 := by decide

theorem crcChunk2 :
    List.foldl crcByteStep 0xee160f20 (List.replicate 504 0) = 0x8e18026f := by decide

theorem crcChunk3 :
    List.foldl crcByteStep 0x8e18026f (List.replicate 504 0) = 0x1df21625 := by decide

theorem crcChunk4 :
    List.foldl crcByteStep 0x1df21625 (List.replicate 504 0) = 0x276c13bb := by decide

theorem crcChunk5 :
    List.foldl crcByteStep 0x276c13bb (List.replicate 504 0) = 0x4448844a := by decide

theorem crcChunk6 :
    List.foldl crcByteStep 0x4448844a (List.replicate 504 0) = 0x6568c684 := by decide

theorem crcChunk7 :
    List.foldl crcByteStep 0x6568c684 (List.replicate 504 0) = 0xec371b00 := by decide

theorem crcChunk8 :
    List.foldl crcByteStep 0xec371b00 (List.replicate 500 0) = 0x52bb90a6 := by decide

theorem crcZeros4028 :
    List.foldl crcByteStep 0xFFFFFFFF (List.replicate 4028 0) = 0x52bb90a6 := by
  have h : (4028 : Nat) = 504 + (504 + (504 + (504 + (504 + (504 + (504 + 500)))))) := by
    norm_num
  rw [h]
  rw [List.replicate_add, List.foldl_append, crcChunk1]
  rw [List.replicate_add, List.foldl_append, crcChunk2]
  rw [List.replicate_add, List.foldl_append, crcChunk3]
  rw [List.replicate_add, List.foldl_append, crcChunk4]
  rw [List.replicate_add, List.foldl_append, crcChunk5]
  rw [List.replicate_add, List.foldl_append, crcChunk6]
  rw [List.replicate_add, List.foldl_append, crcChunk7]
  exact crcChunk8

theorem crc32_region1 :
    crc32 (List.replicate 4028 0 ++ [0xE2, 0x66, 0x56, 0xB7]) = 0x6170a4a1 := by
  unfold crc32
  rw [List.foldl_append, crcZeros4028]
  decide

theorem crc32_region2 :
    crc32 (List.replicate 4028 0 ++ [0xE2, 0x66, 0x56, 0xB8]) = 0xf1cfb930 := by
  unfold crc32
  rw [List.foldl_append, crcZeros4028]
  decide

theorem crc32_region0 : crc32 (List.replicate 4032 (0 : Nat)) = 0xe8b8467d := by
  unfold crc32
  rw [show (4032 : Nat) = 4028 + 4 by norm_num, List.replicate_add,
    List.foldl_append, crcZeros4028]
  decide

theorem bcRegion_zero_tail (rom : Nat → Nat) (t0 t1 t2 t3 : Nat)
    (hz : ∀ k, k < 4028 → rom (0x40 + k) = 0)
    (ht0 : rom 0xFFC = t0) (ht1 : rom 0xFFD = t1)
    (ht2 : rom 0xFFE = t2) (ht3 : rom 0xFFF = t3)
    (hb0 : t0 < 256) (hb1 : t1 < 256) (hb2 : t2 < 256) (hb3 : t3 < 256) :
    bcRegion rom = List.replicate 4028 0 ++ [t0, t1, t2, t3] := by
  have hzmap : (List.range 4028).map (fun k => byteAt rom (0x40 + k)) =
      List.replicate 4028 0 := by
    have hlen : ((List.range 4028).map (fun k => byteAt rom (0x40 + k))).length
        = 4028 := by simp
    conv_rhs => rw [← hlen]
    apply List.eq_replicate_of_mem
    intro b hb
    simp only [List.mem_map, List.mem_range] at hb
    obtain ⟨k, hk, rfl⟩ := hb
    unfold byteAt
    rw [hz k hk]
  show (List.range 4032).map (fun k => byteAt rom (0x40 + k)) = _
  rw [show (4032 : Nat) = 4031 + 1 by norm_num, List.range_succ]
  rw [show (4031 : Nat) = 4030 + 1 by norm_num, List.range_succ]
  rw [show (4030 : Nat) = 4029 + 1 by norm_num, List.range_succ]
  rw [show (4029 : Nat) = 4028 + 1 by norm_num, List.range_succ]
  simp only [List.map_append, List.map_cons, List.map_nil, hzmap]
  have e0 : byteAt rom (0x40 + 4028) = t0 := by
    unfold byteAt
    rw [show (0x40 + 4028 : Nat) = 0xFFC by norm_num, ht0]
    exact Nat.mod_eq_of_lt hb0
  have e1 : byteAt rom (0x40 + 4029) = t1 := by
    unfold byteAt
    rw [show (0x40 + 4029 : Nat) = 0xFFD by norm_num, ht1]
    exact Nat.mod_eq_of_lt hb1
  have e2 : byteAt rom (0x40 + 4030) = t2 := by
    unfold byteAt
    rw [show (0x40 + 4030 : Nat) = 0xFFE by norm_num, ht2]
    exact Nat.mod_eq_of_lt hb2
  have e3 : byteAt rom (0x40 + 4031) = t3 := by
    unfold byteAt
    rw [show (0x40 + 4031 : Nat) = 0xFFF by norm_num, ht3]
    exact Nat.mod_eq_of_lt hb3
  rw [e0, e1, e2, e3]
  simp only [List.append_assoc, List.singleton_append, List.cons_append, List.nil_append]

theorem bcRegion_rom1 :
    bcRegion rom1 = List.replicate 4028 0 ++ [0xE2, 0x66, 0x56, 0xB7] := by
  refine bcRegion_zero_tail rom1 0xE2 0x66 0x56 0xB7 ?_ rfl rfl rfl rfl
    (by norm_num) (by norm_num) (by norm_num) (by norm_num)
  intro k hk
  have n1 : ¬ (0x40 + k = 0xFFC) := by omega
  have n2 : ¬ (0x40 + k = 0xFFD) := by omega
  have n3 : ¬ (0x40 + k = 0xFFE) := by omega
  have n4 : ¬ (0x40 + k = 0xFFF) := by omega
  simp only [rom1, if_neg n1, if_neg n2, if_neg n3, if_neg n4]

theorem bcRegion_rom2 :
    bcRegion rom2 = List.replicate 4028 0 ++ [0xE2, 0x66, 0x56, 0xB8] := by
  refine bcRegion_zero_tail rom2 0xE2 0x66 0x56 0xB8 ?_ rfl rfl rfl rfl
    (by norm_num) (by norm_num) (by norm_num) (by norm_num)
  intro k hk
  have n1 : ¬ (0x40 + k = 0xFFC) := by omega
  have n2 : ¬ (0x40 + k = 0xFFD) := by omega
  have n3 : ¬ (0x40 + k = 0xFFE) := by omega
  have n4 : ¬ (0x40 + k = 0xFFF) := by omega
  simp only [rom2, if_neg n1, if_neg n2, if_neg n3, if_neg n4]

theorem bcRegion_rom0 : bcRegion rom0 = List.replicate 4032 0 := by
  show (List.range 4032).map (fun k => byteAt rom0 (0x40 + k)) = _
  have hlen : ((List.range 4032).map (fun k => byteAt rom0 (0x40 + k))).length
      = 4032 := by simp
  conv_rhs => rw [← hlen]
  apply List.eq_replicate_of_mem
  intro b hb
  simp only [List.mem_map, List.mem_range] at hb
  obtain ⟨k, _, rfl⟩ := hb
  rfl

theorem identify_rom1 : identify rom1 = some N64CicType.Cic6101 := by
  simp only [identify]
  rw [bcRegion_rom1, crc32_region1]
  rfl

theorem identify_rom2 : identify rom2 = none := by
  simp only [identify]
  rw [bcRegion_rom2, crc32_region2]
  rfl

/-! ## Claim C2 -/

theorem identifySpec_congr (r r2 : Nat → Nat)
    (h : ∀ k, k < 0x100000 → r (0x1000 + k) = r2 (0x1000 + k)) :
    identifySpec r = identifySpec r2 := by
  unfold identifySpec mibWindow
  have hmap : (List.range 0x100000).map (fun k => byteAt r (0x1000 + k)) =
      (List.range 0x100000).map (fun k => byteAt r2 (0x1000 + k)) := by
    apply List.map_congr_left
    intro k hk
    rw [List.mem_range] at hk
    unfold byteAt
    rw [h k hk]
  rw [hmap]

/-- C2 counterexample: `identify` is not a function of the 1 MiB window
matched against the five constants.  `rom1` and `rom2` agree on every byte
of the window `[0x1000, 0x101000)` (both all zero there), yet `identify`
returns `some Cic6101` on one and `none` on the other, because the CRC-32
is actually taken over the boot-code region `[0x40, 0x1000)`, where the
two differ. -/
theorem claim_C2_counterexample :
    ¬ (∀ rom : Nat → Nat, identify rom = identifySpec rom) := by
  intro hall
  have h1 := hall rom1
  have h2 := hall rom2
  rw [identify_rom1] at h1
  rw [identify_rom2] at h2
  have hw : identifySpec rom1 = identifySpec rom2 := by
    apply identifySpec_congr
    intro k _
    have n1 : ¬ (0x1000 + k = 0xFFC) := by omega
    have n2 : ¬ (0x1000 + k = 0xFFD) := by omega
    have n3 : ¬ (0x1000 + k = 0xFFE) := by omega
    have n4 : ¬ (0x1000 + k = 0xFFF) := by omega
    simp only [rom1, rom2, if_neg n1, if_neg n2, if_neg n3, if_neg n4]
  rw [← h1, ← h2] at hw
  exact Option.noConfusion hw

/-- C2 (amended): boot-chip identification computes the reflected CRC-32
over the boot-code region (bytes `0x40 .. 0x1000`) of the image — not the
1 MiB window — and matches it against the five fixed constants; when the
CRC matches none of them, `identify` returns `none` and `calculate_crc`
therefore returns `none`. -/
theorem claim_C2 (rom : Nat → Nat) :
    identify rom = variantOfCrc (crc32 (bcRegion rom)) ∧
    (variantOfCrc (crc32 (bcRegion rom)) = none →
      identify rom = none ∧ calculate_crc rom = none) := by
  have hid : identify rom = variantOfCrc (crc32 (bcRegion rom)) := rfl
  refine ⟨hid, fun hnone => ⟨hid.trans hnone, ?_⟩⟩
  unfold calculate_crc
  rw [hid.trans hnone]
  rfl

/-- Witness for the amended C2 at the all-zero rom, whose boot-code-region
CRC matches no constant. -/
theorem claim_C2_witness : identify rom0 = none ∧ calculate_crc rom0 = none :=
  (claim_C2 rom0).2 (by rw [bcRegion_rom0, crc32_region0]; rfl)

/-! ## Claim C4 -/

theorem cicStep_bounded (bc : N64CicType) (w : Nat → Nat) (i : Nat)
    (st : CicState) (h : st.Bounded) : (cicStep bc w i st).Bounded := by
  obtain ⟨h1, h2, h3, h4, h5, h6⟩ := h
  have hd : be32 w (4 * i) < M32 := be32_lt w _
  have hr : cicR (be32 w (4 * i)) < M32 := cicR_lt _ hd
  refine ⟨Nat.mod_lt _ M32_pos, ?_, xor_lt_M32 h3 hd, Nat.mod_lt _ M32_pos,
    Nat.mod_lt _ M32_pos, Nat.mod_lt _ M32_pos⟩
  apply xor_lt_M32 h2
  by_cases hc : st.t2 > be32 w (4 * i)
  · rw [if_pos hc]
    exact hr
  · rw [if_neg hc]
    exact xor_lt_M32 (Nat.mod_lt _ M32_pos) hd

theorem foldl_cicStep_bounded (bc : N64CicType) (w : Nat → Nat)
    (l : List Nat) : ∀ st : CicState, st.Bounded →
    (l.foldl (fun s i => cicStep bc w i s) st).Bounded := by
  induction l with
  | nil => intro st h; exact h
  | cons i rest ih =>
    intro st h
    exact ih _ (cicStep_bounded bc w i st h)

theorem cicLoop_bounded (bc : N64CicType) (w : Nat → Nat) :
    (cicLoop bc w).Bounded := by
  unfold cicLoop
  apply foldl_cicStep_bounded
  cases bc <;> decide

theorem cicCombine_eq_spec (bc : N64CicType) (st : CicState) :
    cicCombine bc st = cicCombineSpec bc st := by
  cases bc <;> simp [cicCombine, cicCombineSpec, Nat.mod_add_mod]

theorem cicCombineSpec_bounded (bc : N64CicType) (st : CicState)
    (h : st.Bounded) : ∀ x ∈ cicCombineSpec bc st, x < M32 := by
  obtain ⟨h1, h2, h3, h4, h5, h6⟩ := h
  intro x hx
  cases bc with
  | Cic6103 =>
    simp only [cicCombineSpec, List.mem_cons, List.not_mem_nil, or_false] at hx
    rcases hx with rfl | rfl <;> exact Nat.mod_lt _ M32_pos
  | Cic6106 =>
    simp only [cicCombineSpec, List.mem_cons, List.not_mem_nil, or_false] at hx
    rcases hx with rfl | rfl <;> exact Nat.mod_lt _ M32_pos
  | Cic6101 =>
    simp only [cicCombineSpec, List.mem_cons, List.not_mem_nil, or_false] at hx
    rcases hx with rfl | rfl
    · exact xor_lt_M32 (xor_lt_M32 h6 h4) h3
    · exact xor_lt_M32 (xor_lt_M32 h5 h2) h1
  | Cic6102 =>
    simp only [cicCombineSpec, List.mem_cons, List.not_mem_nil, or_false] at hx
    rcases hx with rfl | rfl
    · exact xor_lt_M32 (xor_lt_M32 h6 h4) h3
    · exact xor_lt_M32 (xor_lt_M32 h5 h2) h1
  | Cic6105 =>
    simp only [cicCombineSpec, List.mem_cons, List.not_mem_nil, or_false] at hx
    rcases hx with rfl | rfl
    · exact xor_lt_M32 (xor_lt_M32 h6 h4) h3
    · exact xor_lt_M32 (xor_lt_M32 h5 h2) h1

/-- C4: whenever the variant is identified, the final pair of
`calculate_crc` is exactly the per-variant combination the spec describes
(`Cic6106` wrapping multiply-add, `Cic6103` wrapping xor-add, all other
variants pure xor), and both output words are reduced `u32` values
(wrapping, never trapping). -/
theorem claim_C4 (rom : Nat → Nat) (bc : N64CicType)
    (h : identify rom = some bc) :
    calculate_crc rom = some (cicCombineSpec bc (cicLoop bc (cicWindow rom))) ∧
    ∀ x ∈ cicCombineSpec bc (cicLoop bc (cicWindow rom)), x < M32 := by
  constructor
  · unfold calculate_crc
    rw [h, Option.map_some', cicCombine_eq_spec]
  · exact cicCombineSpec_bounded bc _ (cicLoop_bounded bc (cicWindow rom))

/-- Witness for C4 at `rom1`, which identifies as `Cic6101`. -/
theorem claim_C4_witness :
    identify rom1 = some N64CicType.Cic6101 ∧
    (calculate_crc rom1 =
        some (cicCombineSpec N64CicType.Cic6101
          (cicLoop N64CicType.Cic6101 (cicWindow rom1))) ∧
      ∀ x ∈ cicCombineSpec N64CicType.Cic6101
          (cicLoop N64CicType.Cic6101 (cicWindow rom1)), x < M32) :=
  ⟨identify_rom1, claim_C4 rom1 N64CicType.Cic6101 identify_rom1⟩

/-! ## List-surgery helper lemmas for the patch engine -/

theorem u32be_length (v : Nat) : (u32be v).length = 4 := rfl

theorem writeBytes_length (l : List Nat) (off : Nat) (v : List Nat)
    (h : off + v.length ≤ l.length) : (writeBytes l off v).length = l.length := by
  unfold writeBytes
  simp only [List.length_append, List.length_take, List.length_drop]
  omega

theorem set4_length (l : List Nat) (off v : Nat) (h : off + 4 ≤ l.length) :
    (set4 l off v).length = l.length :=
  writeBytes_length l off _ (by rw [u32be_length]; omega)

theorem take_writeBytes (l : List Nat) (off : Nat) (v : List Nat)
    (h : off ≤ l.length) : (writeBytes l off v).take off = l.take off := by
  unfold writeBytes
  have hA : (l.take off).length = off := by
    rw [List.length_take]
    omega
  rw [List.append_assoc]
  exact List.take_left' hA

theorem drop_writeBytes (l : List Nat) (off : Nat) (v : List Nat)
    (h : off ≤ l.length) :
    (writeBytes l off v).drop (off + v.length) = l.drop (off + v.length) := by
  unfold writeBytes
  have hA : (l.take off).length = off := by
    rw [List.length_take]
    omega
  exact List.drop_left' (by rw [List.length_append, hA])

theorem writeBytes_writeBytes (l : List Nat) (off : Nat) (v w : List Nat)
    (hvw : v.length = w.length) (h : off + v.length ≤ l.length) :
    writeBytes (writeBytes l off v) off w = writeBytes l off w := by
  show (writeBytes l off v).take off ++ w ++
      (writeBytes l off v).drop (off + w.length) = writeBytes l off w
  rw [← hvw, take_writeBytes l off v (by omega), drop_writeBytes l off v (by omega)]
  unfold writeBytes
  rw [hvw]

theorem set4_set4 (l : List Nat) (off : Nat) (v w : Nat)
    (h : off + 4 ≤ l.length) : set4 (set4 l off v) off w = set4 l off w :=
  writeBytes_writeBytes l off (u32be v) (u32be w)
    (by rw [u32be_length, u32be_length]) (by rw [u32be_length]; omega)

/-! ## Claim C5 -/

/-- C5 counterexample: for the step-1 patch sequence on a concrete
12-byte data buffer (offsets 0, 4, 8, code checksum of the one-byte code
span `[1]`), recomputing the data checksum after all three patches does
not reproduce the value written into the third offset: writing the
checksum word changes the byte sum that the checksum itself folds over. -/
theorem claim_C5_counterexample :
    (bk_crc (patchOverlayStep1 (List.replicate 12 0) 0 4 8 (bk_crc [1]))).1 ≠
      step1Written (List.replicate 12 0) 0 4 8 (bk_crc [1]) := by decide

/-- C5 (amended): for every overlay processed by dependency step 1, the
value written into the third offset is exactly the first word of the
checksum of the data span with the third offset zeroed, and recomputing
the data-span checksum after re-zeroing the third offset reproduces that
checksum exactly (the zero-then-compute-then-patch sequence is a fixed
point once the third offset is zeroed again). -/
theorem claim_C5 (data : List Nat) (o1 o2 o3 : Nat) (c : Nat × Nat)
    (h1 : o1 + 4 ≤ data.length) (h2 : o2 + 4 ≤ data.length)
    (h3 : o3 + 4 ≤ data.length) :
    bk_crc (set4 (patchOverlayStep1 data o1 o2 o3 c) o3 0) =
      bk_crc (step1Zeroed data o1 o2 o3 c) ∧
    step1Written data o1 o2 o3 c = (bk_crc (step1Zeroed data o1 o2 o3 c)).1 := by
  refine ⟨?_, rfl⟩
  have hl1 : (set4 data o1 c.1).length = data.length := set4_length _ _ _ h1
  have hl2 : (set4 (set4 data o1 c.1) o2 c.2).length = data.length := by
    rw [set4_length _ _ _ (by rw [hl1]; exact h2)]
    exact hl1
  have hz : (step1Zeroed data o1 o2 o3 c).length = data.length := by
    unfold step1Zeroed
    rw [set4_length _ _ _ (by rw [hl2]; exact h3)]
    exact hl2
  have hstep : patchOverlayStep1 data o1 o2 o3 c =
      set4 (step1Zeroed data o1 o2 o3 c) o3
        (bk_crc (step1Zeroed data o1 o2 o3 c)).1 := rfl
  rw [hstep, set4_set4 _ _ _ _ (by rw [hz]; exact h3)]
  have hzz : set4 (step1Zeroed data o1 o2 o3 c) o3 0 =
      step1Zeroed data o1 o2 o3 c := by
    unfold step1Zeroed
    exact set4_set4 _ _ _ _ (by rw [hl2]; exact h3)
  rw [hzz]

/-- Witness for the amended C5 on the same concrete step-1 instance as the
counterexample. -/
theorem claim_C5_witness :
    bk_crc (set4 (patchOverlayStep1 (List.replicate 12 0) 0 4 8 (bk_crc [1])) 8 0) =
      bk_crc (step1Zeroed (List.replicate 12 0) 0 4 8 (bk_crc [1])) ∧
    step1Written (List.replicate 12 0) 0 4 8 (bk_crc [1]) =
      (bk_crc (step1Zeroed (List.replicate 12 0) 0 4 8 (bk_crc [1]))).1 :=
  claim_C5 (List.replicate 12 0) 0 4 8 (bk_crc [1]) (by decide) (by decide) (by decide)

/-! ## Claim C6 -/

/-- C6 counterexample: the step-2 sequence of the code is not the sequence
the claim describes.  On a concrete instance (core2 data `[0,0,0,0]`,
its code-checksum word patched at offset 0), the code patches core2's own
data span and only then computes core2's data checksum, whereas under the
claim's description (patch into core1's span, core2 untouched) core2's
data checksum would be that of the unpatched span; the two runs produce
different results. -/
theorem claim_C6_counterexample :
    step2 [0, 0, 0, 0, 0, 0, 0, 0] [0, 0, 0, 0] 0 0 4 (0, 1) 5 ≠
      step2Claim [0, 0, 0, 0, 0, 0, 0, 0] [0, 0, 0, 0] 0 0 4 (0, 1) 5 := by decide

/-- C6 (amended): in dependency step 2, one word of core2's own code
checksum is patched into a fixed offset of core2's own data span — not
core1's — and only after that patch is core2's full data checksum
computed; that data checksum is then written into core1's data span
(together with the completed SM checksum word) before core1's data
checksum is computed, and the patches preserve both buffer lengths. -/
theorem claim_C6 (core1data core2data : List Nat) (offF4 off574 off650 : Nat)
    (cc : Nat × Nat) (sm : Nat)
    (hf : offF4 + 4 ≤ core2data.length)
    (h5 : off574 + 4 ≤ core1data.length) (h6 : off650 + 4 ≤ core1data.length) :
    (step2 core1data core2data offF4 off574 off650 cc sm).1 =
        set4 core2data offF4 cc.2 ∧
    (step2 core1data core2data offF4 off574 off650 cc sm).2.1 =
        bk_crc (set4 core2data offF4 cc.2) ∧
    (step2 core1data core2data offF4 off574 off650 cc sm).2.2.1 =
        set4 (set4 core1data off574 (bk_crc (set4 core2data offF4 cc.2)).2)
          off650 sm ∧
    (step2 core1data core2data offF4 off574 off650 cc sm).2.2.2 =
        bk_crc (step2 core1data core2data offF4 off574 off650 cc sm).2.2.1 ∧
    (step2 core1data core2data offF4 off574 off650 cc sm).1.length =
        core2data.length ∧
    (step2 core1data core2data offF4 off574 off650 cc sm).2.2.1.length =
        core1data.length := by
  refine ⟨rfl, rfl, rfl, rfl, set4_length _ _ _ hf, ?_⟩
  show (set4 (set4 core1data off574 _) off650 sm).length = core1data.length
  rw [set4_length, set4_length]
  · exact h5
  · rw [set4_length _ _ _ h5]
    exact h6

/-- Witness for the amended C6 on the counterexample's concrete instance. -/
theorem claim_C6_witness :
    (step2 [0, 0, 0, 0, 0, 0, 0, 0] [0, 0, 0, 0] 0 0 4 (0, 1) 5).1 =
        set4 [0, 0, 0, 0] 0 (0, 1).2 ∧
    (step2 [0, 0, 0, 0, 0, 0, 0, 0] [0, 0, 0, 0] 0 0 4 (0, 1) 5).2.1 =
        bk_crc (set4 [0, 0, 0, 0] 0 (0, 1).2) ∧
    (step2 [0, 0, 0, 0, 0, 0, 0, 0] [0, 0, 0, 0] 0 0 4 (0, 1) 5).2.2.1 =
        set4 (set4 [0, 0, 0, 0, 0, 0, 0, 0] 0
          (bk_crc (set4 [0, 0, 0, 0] 0 (0, 1).2)).2) 4 5 ∧
    (step2 [0, 0, 0, 0, 0, 0, 0, 0] [0, 0, 0, 0] 0 0 4 (0, 1) 5).2.2.2 =
        bk_crc (step2 [0, 0, 0, 0, 0, 0, 0, 0] [0, 0, 0, 0] 0 0 4 (0, 1) 5).2.2.1 ∧
    (step2 [0, 0, 0, 0, 0, 0, 0, 0] [0, 0, 0, 0] 0 0 4 (0, 1) 5).1.length =
        ([0, 0, 0, 0] : List Nat).length ∧
    (step2 [0, 0, 0, 0, 0, 0, 0, 0] [0, 0, 0, 0] 0 0 4 (0, 1) 5).2.2.1.length =
        ([0, 0, 0, 0, 0, 0, 0, 0] : List Nat).length :=
  claim_C6 [0, 0, 0, 0, 0, 0, 0, 0] [0, 0, 0, 0] 0 0 4 (0, 1) 5
    (by decide) (by decide) (by decide)

/-! ## Claim C8 -/

theorem le_roundUp16 (n : Nat) : n ≤ roundUp16 n := by
  unfold roundUp16
  rw [Nat.shiftRight_eq_div_pow, Nat.shiftLeft_eq, show (2 : Nat) ^ 4 = 16 by norm_num]
  omega

theorem roundUp16_mod16 (n : Nat) : roundUp16 n % 16 = 0 := by
  unfold roundUp16
  rw [Nat.shiftRight_eq_div_pow, Nat.shiftLeft_eq, show (2 : Nat) ^ 4 = 16 by norm_num]
  omega

theorem listResize_pad (l : List Nat) (n : Nat) (h : l.length ≤ n) :
    listResize l n 0 = l ++ List.replicate (n - l.length) 0 := by
  unfold listResize
  by_cases he : n ≤ l.length
  · have heq : n = l.length := Nat.le_antisymm he h
    subst heq
    rw [if_pos (Nat.le_refl _), List.take_length, Nat.sub_self,
      List.replicate_zero, List.append_nil]
  · rw [if_neg he]

theorem mk_block_eq (zip : List Nat → List Nat) (code data : List Nat) :
    mk_block zip code data =
      (zip code ++ zip data) ++
        List.replicate (roundUp16 (zip code ++ zip data).length -
          (zip code ++ zip data).length) 0 :=
  listResize_pad _ _ (le_roundUp16 _)

theorem mk_block_mod16 (zip : List Nat → List Nat) (code data : List Nat) :
    (mk_block zip code data).length % 16 = 0 := by
  have hlen : (mk_block zip code data).length =
      roundUp16 (zip code ++ zip data).length := by
    rw [mk_block_eq, List.length_append, List.length_replicate]
    have := le_roundUp16 (zip code ++ zip data).length
    omega
  rw [hlen]
  exact roundUp16_mod16 _

theorem swapBlocks_spec (l : List (List Nat)) (h : 5 ≤ l.length) :
    (swapBlocks l 3 4).length = l.length ∧
    (swapBlocks l 3 4)[3]? = l[4]? ∧
    (swapBlocks l 3 4)[4]? = l[3]? ∧
    ∀ k, k ≠ 3 → k ≠ 4 → (swapBlocks l 3 4)[k]? = l[k]? := by
  have h3 : 3 < l.length := by omega
  have h4 : 4 < l.length := by omega
  unfold swapBlocks
  refine ⟨by simp, ?_, ?_, ?_⟩
  · rw [List.getElem?_set, if_neg (by omega), List.getElem?_set, if_pos rfl,
      if_pos h3, List.getD_eq_getElem l [] h4, List.getElem?_eq_getElem h4]
  · rw [List.getElem?_set, if_pos rfl, List.length_set, if_pos h4,
      List.getD_eq_getElem l [] h3, List.getElem?_eq_getElem h3]
  · intro k hk3 hk4
    rw [List.getElem?_set, if_neg (fun hc => hk4 hc.symm), List.getElem?_set,
      if_neg (fun hc => hk3 hc.symm)]

theorem assemble_length (rom : List Nat)
    (bootStart bootEnd crcStart overlayStart : Nat)
    (crcBytes : List Nat) (blocks : List (List Nat))
    (hb1 : bootStart ≤ bootEnd) (hb2 : bootEnd ≤ rom.length)
    (hhdr : bootEnd = crcStart) (hcrc : crcBytes.length = 0x20)
    (hgap : crcStart + 0x20 ≤ overlayStart) (hov : overlayStart ≤ rom.length)
    (hfit : overlayStart + (blocks.map List.length).sum ≤ 0x1000000) :
    (assemble rom bootStart bootEnd crcStart overlayStart crcBytes blocks).length
      = 0x1000000 := by
  unfold assemble
  simp only [List.length_append, List.length_take, List.length_drop,
    List.length_replicate, List.length_flatten]
  omega

theorem assemble_fill (rom : List Nat)
    (bootStart bootEnd crcStart overlayStart : Nat)
    (crcBytes : List Nat) (blocks : List (List Nat))
    (hb1 : bootStart ≤ bootEnd) (hb2 : bootEnd ≤ rom.length)
    (hhdr : bootEnd = crcStart) (hcrc : crcBytes.length = 0x20)
    (hgap : crcStart + 0x20 ≤ overlayStart) (hov : overlayStart ≤ rom.length) :
    (assemble rom bootStart bootEnd crcStart overlayStart crcBytes blocks).drop
        (overlayStart + (blocks.map List.length).sum) =
      List.replicate
        (0x1000000 - (overlayStart + (blocks.map List.length).sum)) 0xFF := by
  unfold assemble
  apply List.drop_left'
  simp only [List.length_append, List.length_take, List.length_drop,
    List.length_flatten]
  omega

/-- C8: the emitted image layout.  (a) Each overlay block is
`zip code ++ zip data` zero-padded to the next 16-byte boundary, and the
block list is exactly these blocks in processing order; (b) the emitted
order is the processing order with the two adjacent blocks at positions
3 and 4 swapped and nothing else moved; (c) under the layout facts that
hold for the real build (checksum header directly after the boot
segment, gap and overlays inside the image, everything fitting in
16 MiB), the assembled output is exactly `0x1000000` bytes long and its
tail beyond the emitted blocks is all `0xFF` fill. -/
theorem claim_C8 (zip : List Nat → List Nat) (codeL dataL : List (List Nat))
    (rom : List Nat) (bootStart bootEnd crcStart overlayStart : Nat)
    (crcBytes : List Nat)
    (hlen5 : 5 ≤ (rzipBlocks zip codeL dataL).length)
    (hb1 : bootStart ≤ bootEnd) (hb2 : bootEnd ≤ rom.length)
    (hhdr : bootEnd = crcStart) (hcrc : crcBytes.length = 0x20)
    (hgap : crcStart + 0x20 ≤ overlayStart) (hov : overlayStart ≤ rom.length)
    (hfit : overlayStart +
        ((swapBlocks (rzipBlocks zip codeL dataL) 3 4).map List.length).sum
      ≤ 0x1000000) :
    (rzipBlocks zip codeL dataL =
      (codeL.zip dataL).map (fun p => mk_block zip p.1 p.2) ∧
     ∀ p ∈ codeL.zip dataL,
       mk_block zip p.1 p.2 =
         (zip p.1 ++ zip p.2) ++
           List.replicate (roundUp16 (zip p.1 ++ zip p.2).length -
             (zip p.1 ++ zip p.2).length) 0 ∧
       (mk_block zip p.1 p.2).length % 16 = 0) ∧
    ((swapBlocks (rzipBlocks zip codeL dataL) 3 4).length =
        (rzipBlocks zip codeL dataL).length ∧
     (swapBlocks (rzipBlocks zip codeL dataL) 3 4)[3]? =
        (rzipBlocks zip codeL dataL)[4]? ∧
     (swapBlocks (rzipBlocks zip codeL dataL) 3 4)[4]? =
        (rzipBlocks zip codeL dataL)[3]? ∧
     ∀ k, k ≠ 3 → k ≠ 4 →
       (swapBlocks (rzipBlocks zip codeL dataL) 3 4)[k]? =
         (rzipBlocks zip codeL dataL)[k]?) ∧
    ((assemble rom bootStart bootEnd crcStart overlayStart crcBytes
        (swapBlocks (rzipBlocks zip codeL dataL) 3 4)).length = 0x1000000 ∧
     (assemble rom bootStart bootEnd crcStart overlayStart crcBytes
        (swapBlocks (rzipBlocks zip codeL dataL) 3 4)).drop
          (overlayStart +
            ((swapBlocks (rzipBlocks zip codeL dataL) 3 4).map List.length).sum) =
       List.replicate (0x1000000 - (overlayStart +
         ((swapBlocks (rzipBlocks zip codeL dataL) 3 4).map List.length).sum))
         0xFF) :=
  ⟨⟨rfl, fun p _ => ⟨mk_block_eq zip p.1 p.2, mk_block_mod16 zip p.1 p.2⟩⟩,
   swapBlocks_spec _ hlen5,
   assemble_length rom bootStart bootEnd crcStart overlayStart crcBytes _
     hb1 hb2 hhdr hcrc hgap hov hfit,
   assemble_fill rom bootStart bootEnd crcStart overlayStart crcBytes _
     hb1 hb2 hhdr hcrc hgap hov⟩

/-- Witness for C8: a five-overlay instance with identity compression,
a 64-byte source image, boot segment `[2, 3)`, header at 3, overlays
from 35. -/
theorem claim_C8_witness :
    (assemble (List.replicate 64 0) 2 3 3 35 (List.replicate 0x20 0)
      (swapBlocks (rzipBlocks (fun l => l) [[1], [2], [3], [4], [5]]
        [[6], [7], [8], [9], [10]]) 3 4)).length = 0x1000000 ∧
    (assemble (List.replicate 64 0) 2 3 3 35 (List.replicate 0x20 0)
      (swapBlocks (rzipBlocks (fun l => l) [[1], [2], [3], [4], [5]]
        [[6], [7], [8], [9], [10]]) 3 4)).drop
        (35 + ((swapBlocks (rzipBlocks (fun l => l) [[1], [2], [3], [4], [5]]
          [[6], [7], [8], [9], [10]]) 3 4).map List.length).sum) =
      List.replicate (0x1000000 - (35 +
        ((swapBlocks (rzipBlocks (fun l => l) [[1], [2], [3], [4], [5]]
          [[6], [7], [8], [9], [10]]) 3 4).map List.length).sum)) 0xFF :=
  (claim_C8 (fun l => l) [[1], [2], [3], [4], [5]] [[6], [7], [8], [9], [10]]
    (List.replicate 64 0) 2 3 3 35 (List.replicate 0x20 0)
    (by decide) (by decide) (by decide) (by decide) (by decide) (by decide)
    (by decide) (by decide)).2.2

/-! ## Claim C7 -/

/-- C7: for every buffer, resolved symbol (address and segment base) and
4-byte value, the patch overwrites exactly the bytes at
`[offset, offset + 4)` with `offset = addr - base`, leaves every byte
outside that range unchanged, preserves the buffer's length, and fails
(rather than truncating or misplacing the write) whenever the range does
not land fully inside the buffer — both when the offset runs past the end
of the buffer and when the resolved address lies below the segment base
(the `usize` subtraction failure path). -/
theorem claim_C7 (bytes : List Nat) (base addr : Nat) (value : List Nat)
    (hv : value.length = 4) :
    (base ≤ addr → addr - base + 4 ≤ bytes.length →
      ∃ l, replace_symbol bytes base addr value = some l ∧
        l.length = bytes.length ∧
        (∀ i, i < addr - base → l[i]? = bytes[i]?) ∧
        (∀ i, addr - base + 4 ≤ i → l[i]? = bytes[i]?) ∧
        (∀ j, j < 4 → l[addr - base + j]? = value[j]?)) ∧
    (base ≤ addr → bytes.length < addr - base + 4 →
      replace_symbol bytes base addr value = none) ∧
    (addr < base → replace_symbol bytes base addr value = none) := by
  refine ⟨?_, ?_, ?_⟩
  · intro hba hin
    refine ⟨writeBytes bytes (addr - base) value, ?_, ?_, ?_, ?_, ?_⟩
    · unfold replace_symbol
      rw [if_pos hba, hv, if_pos hin]
    · exact writeBytes_length bytes (addr - base) value (by rw [hv]; omega)
    · intro i hi
      unfold writeBytes
      have hA : (bytes.take (addr - base)).length = addr - base := by
        rw [List.length_take]
        omega
      rw [List.append_assoc,
        List.getElem?_append_left (by rw [hA]; exact hi),
        List.getElem?_take, if_pos hi]
    · intro i hi
      unfold writeBytes
      have hA : (bytes.take (addr - base)).length = addr - base := by
        rw [List.length_take]
        omega
      have hAV : (bytes.take (addr - base) ++ value).length = addr - base + 4 := by
        rw [List.length_append, hA, hv]
      rw [List.getElem?_append_right (by rw [hAV]; exact hi), hAV, hv,
        List.getElem?_drop]
      congr 1
      omega
    · intro j hj
      unfold writeBytes
      have hA : (bytes.take (addr - base)).length = addr - base := by
        rw [List.length_take]
        omega
      rw [List.append_assoc,
        List.getElem?_append_right (by rw [hA]; omega), hA,
        List.getElem?_append_left (by rw [hv]; omega)]
      congr 1
      omega
  · intro hba hout
    unfold replace_symbol
    rw [if_pos hba, hv, if_neg (by omega)]
  · intro hba
    unfold replace_symbol
    rw [if_neg (by omega)]

/-- Witness for C7: a successful patch of `[9, 9, 9, 9]` into
`[1, 2, 3, 4, 5]` at resolved offset `11 - 10 = 1`, a failing patch whose
offset `23 - 10 = 13` runs past the end, and a failing patch whose
resolved address 3 lies below the base 10. -/
theorem claim_C7_witness :
    (∃ l, replace_symbol [1, 2, 3, 4, 5] 10 11 [9, 9, 9, 9] = some l ∧
        l.length = ([1, 2, 3, 4, 5] : List Nat).length ∧
        (∀ i, i < 11 - 10 → l[i]? = ([1, 2, 3, 4, 5] : List Nat)[i]?) ∧
        (∀ i, 11 - 10 + 4 ≤ i → l[i]? = ([1, 2, 3, 4, 5] : List Nat)[i]?) ∧
        (∀ j, j < 4 → l[11 - 10 + j]? = ([9, 9, 9, 9] : List Nat)[j]?)) ∧
    replace_symbol [1, 2, 3, 4, 5] 10 23 [9, 9, 9, 9] = none ∧
    replace_symbol [1, 2, 3, 4, 5] 10 3 [9, 9, 9, 9] = none :=
  ⟨(claim_C7 [1, 2, 3, 4, 5] 10 11 [9, 9, 9, 9] (by decide)).1
      (by decide) (by decide),
   (claim_C7 [1, 2, 3, 4, 5] 10 23 [9, 9, 9, 9] (by decide)).2.1
      (by decide) (by decide),
   (claim_C7 [1, 2, 3, 4, 5] 10 3 [9, 9, 9, 9] (by decide)).2.2 (by decide)⟩

/-! ## Claim C10 -/

/-- C10 counterexample: on the 6-byte little-endian-signature input
`[0x40, 0x12, 0x37, 0x80, 0xAA, 0xBB]`, `rom_to_big_endian` drops the
incomplete trailing 4-byte group (`chunks_exact`), so its result is not
"the input with every aligned 4-byte group reversed", which would keep
the trailing two bytes. -/
theorem claim_C10_counterexample :
    rom_to_big_endian [0x40, 0x12, 0x37, 0x80, 0xAA, 0xBB] ≠
      Except.ok (le_to_be_claim [0x40, 0x12, 0x37, 0x80, 0xAA, 0xBB]) := by decide

/-- C10 (amended): for every input of at least 4 bytes,
`rom_to_big_endian` errors exactly when the first four bytes match none of
the three signatures; on success the result begins with the big-endian
signature `80 37 12 40` and is, respectively, the input unchanged, the
input with every complete aligned 4-byte group reversed (any incomplete
trailing group dropped), or the input with every complete aligned 2-byte
pair swapped (any trailing odd byte dropped). -/
theorem claim_C10 (a b c d : Nat) (rest : List Nat) :
    (rom_to_big_endian (a :: b :: c :: d :: rest) =
        Except.error ROMEndianessError.NonN64ROM ↔
      ¬ ([a, b, c, d] = [0x80, 0x37, 0x12, 0x40] ∨
         [a, b, c, d] = [0x40, 0x12, 0x37, 0x80] ∨
         [a, b, c, d] = [0x37, 0x80, 0x40, 0x12])) ∧
    ([a, b, c, d] = [0x80, 0x37, 0x12, 0x40] →
      rom_to_big_endian (a :: b :: c :: d :: rest) =
        Except.ok (a :: b :: c :: d :: rest)) ∧
    ([a, b, c, d] = [0x40, 0x12, 0x37, 0x80] →
      rom_to_big_endian (a :: b :: c :: d :: rest) =
        Except.ok (le_to_be (a :: b :: c :: d :: rest)) ∧
      le_to_be (a :: b :: c :: d :: rest) =
        0x80 :: 0x37 :: 0x12 :: 0x40 :: le_to_be rest) ∧
    ([a, b, c, d] = [0x37, 0x80, 0x40, 0x12] →
      rom_to_big_endian (a :: b :: c :: d :: rest) =
        Except.ok (le_to_me (a :: b :: c :: d :: rest)) ∧
      le_to_me (a :: b :: c :: d :: rest) =
        0x80 :: 0x37 :: 0x12 :: 0x40 :: le_to_me rest) ∧
    (∀ out, rom_to_big_endian (a :: b :: c :: d :: rest) = Except.ok out →
      out.take 4 = [0x80, 0x37, 0x12, 0x40]) := by
  by_cases h1 : [a, b, c, d] = ([0x80, 0x37, 0x12, 0x40] : List Nat)
  · obtain ⟨rfl, rfl, rfl, rfl⟩ : a = 0x80 ∧ b = 0x37 ∧ c = 0x12 ∧ d = 0x40 := by
      injection h1 with e1 h; injection h with e2 h; injection h with e3 h
      injection h with e4 h
      exact ⟨e1, e2, e3, e4⟩
    have hres : rom_to_big_endian (0x80 :: 0x37 :: 0x12 :: 0x40 :: rest) =
        Except.ok (0x80 :: 0x37 :: 0x12 :: 0x40 :: rest) := rfl
    refine ⟨?_, fun _ => hres, fun hc => absurd hc (by decide),
      fun hc => absurd hc (by decide), ?_⟩
    · rw [hres]
      exact ⟨fun hf => Except.noConfusion hf, fun hn => absurd (Or.inl rfl) hn⟩
    · intro out hout
      rw [hres] at hout
      injection hout with he
      rw [← he]
      rfl
  · by_cases h2 : [a, b, c, d] = ([0x40, 0x12, 0x37, 0x80] : List Nat)
    · obtain ⟨rfl, rfl, rfl, rfl⟩ : a = 0x40 ∧ b = 0x12 ∧ c = 0x37 ∧ d = 0x80 := by
        injection h2 with e1 h; injection h with e2 h; injection h with e3 h
        injection h with e4 h
        exact ⟨e1, e2, e3, e4⟩
      have hres : rom_to_big_endian (0x40 :: 0x12 :: 0x37 :: 0x80 :: rest) =
          Except.ok (le_to_be (0x40 :: 0x12 :: 0x37 :: 0x80 :: rest)) := rfl
      have hbe : le_to_be (0x40 :: 0x12 :: 0x37 :: 0x80 :: rest) =
          0x80 :: 0x37 :: 0x12 :: 0x40 :: le_to_be rest := rfl
      refine ⟨?_, fun hc => absurd hc (by decide), fun _ => ⟨hres, hbe⟩,
        fun hc => absurd hc (by decide), ?_⟩
      · rw [hres]
        exact ⟨fun hf => Except.noConfusion hf,
          fun hn => absurd (Or.inr (Or.inl rfl)) hn⟩
      · intro out hout
        rw [hres] at hout
        injection hout with he
        rw [← he, hbe]
        rfl
    · by_cases h3 : [a, b, c, d] = ([0x37, 0x80, 0x40, 0x12] : List Nat)
      · obtain ⟨rfl, rfl, rfl, rfl⟩ : a = 0x37 ∧ b = 0x80 ∧ c = 0x40 ∧ d = 0x12 := by
          injection h3 with e1 h; injection h with e2 h; injection h with e3 h
          injection h with e4 h
          exact ⟨e1, e2, e3, e4⟩
        have hres : rom_to_big_endian (0x37 :: 0x80 :: 0x40 :: 0x12 :: rest) =
            Except.ok (le_to_me (0x37 :: 0x80 :: 0x40 :: 0x12 :: rest)) := rfl
        have hme : le_to_me (0x37 :: 0x80 :: 0x40 :: 0x12 :: rest) =
            0x80 :: 0x37 :: 0x12 :: 0x40 :: le_to_me rest := rfl
        refine ⟨?_, fun hc => absurd hc (by decide), fun hc => absurd hc (by decide),
          fun _ => ⟨hres, hme⟩, ?_⟩
        · rw [hres]
          exact ⟨fun hf => Except.noConfusion hf,
            fun hn => absurd (Or.inr (Or.inr rfl)) hn⟩
        · intro out hout
          rw [hres] at hout
          injection hout with he
          rw [← he, hme]
          rfl
      · have htake : (a :: b :: c :: d :: rest).take 4 = [a, b, c, d] := rfl
        have herr : rom_to_big_endian (a :: b :: c :: d :: rest) =
            Except.error ROMEndianessError.NonN64ROM := by
          unfold rom_to_big_endian
          rw [htake]
          split
          · exact absurd (by assumption) h1
          · exact absurd (by assumption) h2
          · exact absurd (by assumption) h3
          · rfl
        refine ⟨⟨fun _ => ?_, fun _ => herr⟩, fun hc => absurd hc h1,
          fun hc => absurd hc h2, fun hc => absurd hc h3, fun out hout => ?_⟩
        · push_neg
          exact ⟨h1, h2, h3⟩
        · rw [herr] at hout
          exact Except.noConfusion hout

/-- Witness for the amended C10 on the little-endian counterexample
input. -/
theorem claim_C10_witness :
    rom_to_big_endian [0x40, 0x12, 0x37, 0x80, 0xAA, 0xBB] =
      Except.ok (le_to_be [0x40, 0x12, 0x37, 0x80, 0xAA, 0xBB]) ∧
    le_to_be [0x40, 0x12, 0x37, 0x80, 0xAA, 0xBB] =
      0x80 :: 0x37 :: 0x12 :: 0x40 :: le_to_be [0xAA, 0xBB] :=
  (claim_C10 0x40 0x12 0x37 0x80 [0xAA, 0xBB]).2.2.1 rfl

end BkRom
